import Mathlib

/-!
Verification of the streaming ring buffer in src/Receivers/unix/coreaudio.c
(repository pawitp/scream).  The buffer state is the byte array
source_buffer together with the read cursor source_buffer_start and the
write cursor source_buffer_end; the consumer is audio_queue_output_callback
and the producer is coreaudio_output_send.  The capacity SRC_BUF_SIZE is
kept as a parameter C so that the concrete scenario of the spec (C = 16)
and general statements can both be expressed.
-/

namespace Scream

/-- State of the ring buffer of coreaudio.c: the byte array source_buffer
together with the read cursor source_buffer_start and the write cursor
source_buffer_end.  Bytes are modelled as natural numbers. -/
structure RB where
  source_buffer : List Nat
  source_buffer_start : Nat
  source_buffer_end : Nat

/-- The memset of ca_data in coreaudio_output_init: zeroed storage of
capacity C and both cursors at 0. -/
def coreaudio_output_init (C : Nat) : RB :=
  ⟨List.replicate C 0, 0, 0⟩

/-- Contiguous read of n bytes of storage starting at pos (a memcpy whose
source is the ring buffer). -/
def readSeg (storage : List Nat) (pos n : Nat) : List Nat :=
  (List.range n).map (fun i => storage.getD (pos + i) 0)

/-- Contiguous overwrite of storage at pos with the given bytes (a memcpy
whose destination is the ring buffer); positions outside the written
interval keep their old value. -/
def writeSeg (storage : List Nat) (pos : Nat) (bytes : List Nat) : List Nat :=
  (List.range storage.length).map
    (fun i => if pos ≤ i ∧ i < pos + bytes.length then bytes.getD (i - pos) 0
              else storage.getD i 0)

/-- audio_queue_output_callback (coreaudio.c lines 30 to 91) at capacity C:
part 1 copies from the read cursor towards the end of the buffer, then the
cursors that reached C are reset, part 2 copies from the beginning of the
buffer, and the remainder of the block is filled with silence.  Returns the
new state, the block handed to the audio queue, and the number of bytes
copied out of the ring buffer. -/
def audio_queue_output_callback (C : Nat) (s : RB) (wanted : Nat) :
    RB × List Nat × Nat :=
  -- Part 1 - current position to the end of the buffer
  let buffer_end := if s.source_buffer_start < s.source_buffer_end
                    then s.source_buffer_end else C
  let available1 := buffer_end - s.source_buffer_start
  let copy1 := if available1 > wanted then wanted else available1
  let out1 := readSeg s.source_buffer s.source_buffer_start copy1
  let start1 := s.source_buffer_start + copy1
  let wanted1 := wanted - copy1
  -- If we are at the end of the ring buffer, reset the read position to the
  -- start; if the write position is at the end as well, reset it too
  let start2 := if start1 = C then 0 else start1
  let end2 := if start1 = C ∧ s.source_buffer_end = C then 0
              else s.source_buffer_end
  -- Part 2 - copy from the beginning of the buffer if there is more data
  let copy2 := if 0 < wanted1 ∧ start2 < end2 then
                 (if end2 - start2 > wanted1 then wanted1 else end2 - start2)
               else 0
  let out2 := readSeg s.source_buffer start2 copy2
  let start3 := start2 + copy2
  let wanted2 := wanted1 - copy2
  -- fill the gap with silence, hand the full block back
  (⟨s.source_buffer, start3, end2⟩, out1 ++ out2 ++ List.replicate wanted2 0,
   copy1 + copy2)

/-- Result of the copy loop of coreaudio_output_send: the storage, the write
cursor, the part of the chunk not yet consumed, and the sizes of the
segments copied so far (one per loop iteration). -/
structure SendResult where
  storage : List Nat
  source_buffer_end : Nat
  rest : List Nat
  segs : List Nat

/-- The while loop of coreaudio_output_send (coreaudio.c lines 134 to 146),
with an explicit fuel counter standing for the number of loop iterations
still allowed: each iteration normalises a write cursor that reached C,
copies min(remaining, C - cursor) bytes at the cursor and advances it. -/
def sendLoop (C : Nat) : Nat → List Nat → Nat → List Nat → SendResult
  | 0, storage, e, audio => ⟨storage, e, audio, []⟩
  | fuel + 1, storage, e, audio =>
    if audio.isEmpty then ⟨storage, e, [], []⟩
    else
      let e1 := if e = C then 0 else e
      let buffer_available := C - e1
      let copy_size := if audio.length < buffer_available then audio.length
                       else buffer_available
      let r := sendLoop C fuel (writeSeg storage e1 (audio.take copy_size))
                 (e1 + copy_size) (audio.drop copy_size)
      ⟨r.storage, r.source_buffer_end, r.rest, copy_size :: r.segs⟩

/-- coreaudio_output_send (coreaudio.c lines 128 to 155) at capacity C:
copies the whole chunk into the ring buffer through the loop above and
returns 0.  The loop needs at most audio.length iterations (theorem
c8_send_terminates), so audio.length fuel is exact. -/
def coreaudio_output_send (C : Nat) (s : RB) (audio : List Nat) : RB × Nat :=
  let r := sendLoop C audio.length s.source_buffer s.source_buffer_end audio
  (⟨r.storage, s.source_buffer_start, r.source_buffer_end⟩, 0)

/-- Occupancy as the spec derives it: (C + writePos - readPos) mod C. -/
def occupancy (C : Nat) (s : RB) : Nat :=
  (C + s.source_buffer_end - s.source_buffer_start) % C

/-- Total number of real bytes one callback invocation can copy out of the
buffer (part 1 plus part 2). -/
def availTotal (C : Nat) (s : RB) : Nat :=
  if s.source_buffer_start < s.source_buffer_end
  then s.source_buffer_end - s.source_buffer_start
  else C - s.source_buffer_start + s.source_buffer_end

/-- The state envelope the code keeps between operations: storage of length
C, read cursor strictly below C, write cursor at most C. -/
def StateOK (C : Nat) (s : RB) : Prop :=
  s.source_buffer.length = C ∧ s.source_buffer_start < C ∧
    s.source_buffer_end ≤ C

instance (C : Nat) (s : RB) : Decidable (StateOK C s) :=
  inferInstanceAs (Decidable (s.source_buffer.length = C ∧
    s.source_buffer_start < C ∧ s.source_buffer_end ≤ C))

/-- Refinement relation for the round trip: state s stores exactly the
byte list L (length at most C), laid out circularly from the read cursor,
the write cursor sitting right after the last stored byte. -/
def Rinv (C : Nat) (s : RB) (L : List Nat) : Prop :=
  s.source_buffer.length = C ∧ s.source_buffer_start < C ∧
  s.source_buffer_end ≤ C ∧ L.length ≤ C ∧
  (s.source_buffer_end = s.source_buffer_start + L.length ∨
   s.source_buffer_end + C = s.source_buffer_start + L.length) ∧
  (∀ i < L.length,
    s.source_buffer.getD ((s.source_buffer_start + i) % C) 0 = L.getD i 0)

/-- Ingest a list of chunks one after the other. -/
def sendAll (C : Nat) (chunks : List (List Nat)) (s : RB) : RB :=
  chunks.foldl (fun t c => (coreaudio_output_send C t c).1) s

/-- Run one callback per requested size and collect the returned blocks. -/
def readAll (C : Nat) : List Nat → RB → RB × List (List Nat)
  | [], s => (s, [])
  | w :: ws, s =>
    let r := audio_queue_output_callback C s w
    let t := readAll C ws r.1
    (t.1, r.2.1 :: t.2)

/-- An operation on the shared buffer: an ingest or a feed. -/
inductive Op where
  | send (audio : List Nat)
  | feed (w : Nat)

/-- Run a sequence of operations on a state. -/
def runOps (C : Nat) (ops : List Op) (s : RB) : RB :=
  ops.foldl
    (fun t o => match o with
      | .send a => (coreaudio_output_send C t a).1
      | .feed w => (audio_queue_output_callback C t w).1) s

/-- A reachable state with readPos = writePos = 0 whose storage holds the
sixteen bytes 1..16: obtained from the initialised 16 byte buffer by
ingesting 1..16 and feeding one 16 byte block. -/
def exampleState : RB :=
  (audio_queue_output_callback 16
    (coreaudio_output_send 16 (coreaudio_output_init 16)
      ((List.range 16).map (· + 1))).1 16).1

/-! Helper lemmas about list access, segments and modular positions. -/

theorem getD_default (l : List Nat) (i d : Nat) (h : l.length ≤ i) :
    l.getD i d = d := by
  rw [List.getD_eq_getElem?_getD, List.getElem?_eq_none h]
  rfl

theorem getD_of_lt (l : List Nat) (i d : Nat) (h : i < l.length) :
    l.getD i d = l[i] := by
  rw [List.getD_eq_getElem?_getD, List.getElem?_eq_getElem h]
  rfl

theorem range_map_getD (f : Nat → Nat) (n i d : Nat) (h : i < n) :
    ((List.range n).map f).getD i d = f i := by
  rw [List.getD_eq_getElem?_getD, List.getElem?_map, List.getElem?_range h]
  rfl

theorem range_map_getD_ge (f : Nat → Nat) (n i d : Nat) (h : n ≤ i) :
    ((List.range n).map f).getD i d = d := by
  apply getD_default
  simpa using h

theorem getD_take (l : List Nat) (n i d : Nat) (h : i < n) :
    (l.take n).getD i d = l.getD i d := by
  rw [List.getD_eq_getElem?_getD, List.getD_eq_getElem?_getD,
    List.getElem?_take]
  simp [h]

theorem getD_drop (l : List Nat) (n i d : Nat) :
    (l.drop n).getD i d = l.getD (n + i) d := by
  rw [List.getD_eq_getElem?_getD, List.getD_eq_getElem?_getD,
    List.getElem?_drop]

theorem getD_append_left (l1 l2 : List Nat) (i d : Nat) (h : i < l1.length) :
    (l1 ++ l2).getD i d = l1.getD i d := by
  rw [List.getD_eq_getElem?_getD, List.getD_eq_getElem?_getD,
    List.getElem?_append]
  simp [h]

theorem getD_append_right (l1 l2 : List Nat) (i d : Nat)
    (h : l1.length ≤ i) :
    (l1 ++ l2).getD i d = l2.getD (i - l1.length) d := by
  rw [List.getD_eq_getElem?_getD, List.getD_eq_getElem?_getD,
    List.getElem?_append_right h]

theorem eq_of_getD (l1 l2 : List Nat) (hlen : l1.length = l2.length)
    (h : ∀ i < l1.length, l1.getD i 0 = l2.getD i 0) : l1 = l2 := by
  refine List.ext_getElem hlen (fun i h1 h2 => ?_)
  have := h i h1
  rwa [getD_of_lt _ _ _ h1, getD_of_lt _ _ _ h2] at this

theorem range_map_congr (f g : Nat → Nat) (n : Nat)
    (h : ∀ i < n, f i = g i) :
    (List.range n).map f = (List.range n).map g := by
  refine List.map_congr_left (fun i hi => ?_)
  exact h i (List.mem_range.mp hi)

theorem range_map_add (f : Nat → Nat) (a b : Nat) :
    (List.range (a + b)).map f
      = (List.range a).map f ++ (List.range b).map (fun i => f (a + i)) := by
  rw [List.range_add a b, List.map_append, List.map_map]
  rfl

theorem mod_two_region (C a : Nat) (h : a < 2 * C) :
    a % C = if a < C then a else a - C := by
  by_cases hc : a < C
  · simp [hc, Nat.mod_eq_of_lt hc]
  · have h1 : C ≤ a := Nat.le_of_not_lt hc
    rw [Nat.mod_eq_sub_mod h1, Nat.mod_eq_of_lt (by omega)]
    simp [hc]

theorem writeSeg_length (storage : List Nat) (pos : Nat) (bytes : List Nat) :
    (writeSeg storage pos bytes).length = storage.length := by
  simp [writeSeg]

theorem writeSeg_getD (storage : List Nat) (pos : Nat) (bytes : List Nat)
    (p : Nat) (hp : p < storage.length) :
    (writeSeg storage pos bytes).getD p 0
      = if pos ≤ p ∧ p < pos + bytes.length then bytes.getD (p - pos) 0
        else storage.getD p 0 := by
  rw [writeSeg, range_map_getD _ _ _ _ hp]

theorem readSeg_length (storage : List Nat) (pos n : Nat) :
    (readSeg storage pos n).length = n := by
  simp [readSeg]

theorem readSeg_getD (storage : List Nat) (pos n i : Nat) (h : i < n) :
    (readSeg storage pos n).getD i 0 = storage.getD (pos + i) 0 := by
  rw [readSeg, range_map_getD _ _ _ _ h]

theorem getD_zero_of_all_zero (l : List Nat) (h : ∀ x ∈ l, x = 0) (i : Nat) :
    l.getD i 0 = 0 := by
  by_cases hi : i < l.length
  · rw [getD_of_lt _ _ _ hi]
    exact h _ (List.getElem_mem hi)
  · exact getD_default _ _ _ (Nat.le_of_not_lt hi)

theorem getD_replicate_zero (n i : Nat) :
    (List.replicate n 0).getD i 0 = 0 := by
  by_cases h : i < n
  · rw [getD_of_lt _ _ _ (by simpa using h)]
    simp
  · exact getD_default _ _ _ (by simpa using Nat.le_of_not_lt h)


/-- Position congruence used below: a contiguous segment read below C
equals the circular form of the same read. -/
theorem readSeg_as_mod (buf : List Nat) (C pos n : Nat) (h : pos + n ≤ C) :
    (List.range n).map (fun i => buf.getD ((pos + i) % C) 0)
      = readSeg buf pos n := by
  unfold readSeg
  apply range_map_congr
  intro i hi
  rw [Nat.mod_eq_of_lt (by omega)]

/-- Callback case: part 1 alone serves the whole request and the read
cursor stays below C. -/
theorem callback_eq_case1 (C : Nat) (buf : List Nat) (st en w : Nat)
    (he : en ≤ C) (h1 : st < en) (h2 : en - st > w) :
    audio_queue_output_callback C ⟨buf, st, en⟩ w
      = (⟨buf, st + w, en⟩, readSeg buf st w, w) := by
  simp only [audio_queue_output_callback]
  simp only [if_pos h1, if_pos h2]
  have hne : ¬ (st + w = C) := by omega
  simp only [if_neg hne, if_neg (show ¬ (st + w = C ∧ en = C) by tauto)]
  simp only [Nat.sub_self, Nat.lt_irrefl, false_and,
    if_neg (show ¬ (0 < w - w ∧ st + w < en) by omega)]
  simp [readSeg]

/-- Callback case: part 1 drains up to a write cursor that sits at C, so
both cursors are reset together. -/
theorem callback_eq_case2 (C : Nat) (buf : List Nat) (st en w : Nat)
    (h1 : st < en) (h2 : ¬ (en - st > w)) (h3 : en = C) :
    audio_queue_output_callback C ⟨buf, st, en⟩ w
      = (⟨buf, 0, 0⟩,
         readSeg buf st (en - st) ++ List.replicate (w - (en - st)) 0,
         en - st) := by
  subst h3
  have hr : st + (en - st) = en := by omega
  simp only [audio_queue_output_callback, if_pos h1, if_neg h2, hr]
  simp [readSeg]

/-- Callback case: part 1 drains up to a write cursor below C; no reset
happens and part 2 finds no room. -/
theorem callback_eq_case3 (C : Nat) (buf : List Nat) (st en w : Nat)
    (h1 : st < en) (h2 : ¬ (en - st > w)) (h3 : ¬ (en = C)) :
    audio_queue_output_callback C ⟨buf, st, en⟩ w
      = (⟨buf, en, en⟩,
         readSeg buf st (en - st) ++ List.replicate (w - (en - st)) 0,
         en - st) := by
  have hr : st + (en - st) = en := by omega
  simp only [audio_queue_output_callback, if_pos h1, if_neg h2, hr]
  simp [h3, readSeg]

/-- Callback case: the read cursor is at or above the write cursor and the
stretch to the physical end already serves the request. -/
theorem callback_eq_case4 (C : Nat) (buf : List Nat) (st en w : Nat)
    (hs : st < C) (he : en ≤ C) (h1 : ¬ (st < en)) (h2 : C - st > w) :
    audio_queue_output_callback C ⟨buf, st, en⟩ w
      = (⟨buf, st + w, en⟩, readSeg buf st w, w) := by
  have hne : ¬ (st + w = C) := by omega
  simp only [audio_queue_output_callback, if_neg h1, if_pos h2, if_neg hne,
    if_neg (show ¬ (st + w = C ∧ en = C) by tauto)]
  simp only [Nat.sub_self, Nat.lt_irrefl, false_and,
    if_neg (show ¬ (0 < w - w ∧ st + w < en) by omega)]
  simp [readSeg]

/-- Callback case: part 1 reaches the physical end, the read cursor is
reset to 0 and part 2 copies from the head of the buffer. -/
theorem callback_eq_case5 (C : Nat) (buf : List Nat) (st en w : Nat)
    (hs : st < C) (h1 : ¬ (st < en)) (h2 : ¬ (C - st > w))
    (h4 : 0 < w - (C - st)) (h5 : 0 < en) :
    audio_queue_output_callback C ⟨buf, st, en⟩ w
      = (⟨buf, min (w - (C - st)) en, en⟩,
         readSeg buf st (C - st) ++ readSeg buf 0 (min (w - (C - st)) en)
           ++ List.replicate (w - (C - st) - min (w - (C - st)) en) 0,
         (C - st) + min (w - (C - st)) en) := by
  have hr : st + (C - st) = C := by omega
  have hen : ¬ (en = C) := by omega
  simp only [audio_queue_output_callback, if_neg h1, if_neg h2, hr]
  by_cases hx : w - (C - st) < en
  · rw [show min (w - (C - st)) en = w - (C - st) from by omega]
    simp [hen, h4, h5, hx]
  · rw [show min (w - (C - st)) en = en from by omega]
    simp [hen, h4, h5, hx]

/-- Callback case: part 1 reaches the physical end but part 2 has nothing
to do (request exhausted or empty head segment). -/
theorem callback_eq_case6 (C : Nat) (buf : List Nat) (st en w : Nat)
    (hs : st < C) (h1 : ¬ (st < en)) (h2 : ¬ (C - st > w))
    (h4 : ¬ (0 < w - (C - st) ∧ 0 < en)) :
    audio_queue_output_callback C ⟨buf, st, en⟩ w
      = (⟨buf, 0, en⟩,
         readSeg buf st (C - st) ++ List.replicate (w - (C - st)) 0,
         C - st) := by
  have hr : st + (C - st) = C := by omega
  have hen : ¬ (en = C) := by omega
  have h4b : ¬ (C - st < w ∧ 0 < en) := by omega
  simp only [audio_queue_output_callback, if_neg h1, if_neg h2, hr]
  simp [hen, h4b, readSeg]

/-- Master characterisation of one callback invocation on a state inside
the envelope: it copies min(wanted, availTotal) bytes taken circularly from
the read cursor, pads the block with silence up to the wanted size, leaves
storage unchanged, advances the read cursor modulo C, and resets the write
cursor exactly when both cursors reach C together. -/
theorem callback_spec (C : Nat) (hC : 0 < C) (s : RB)
    (hs : s.source_buffer_start < C) (he : s.source_buffer_end ≤ C)
    (w : Nat) :
    (audio_queue_output_callback C s w).2.2 = min w (availTotal C s) ∧
    (audio_queue_output_callback C s w).2.1
      = (List.range (min w (availTotal C s))).map
          (fun i => s.source_buffer.getD ((s.source_buffer_start + i) % C) 0)
        ++ List.replicate (w - min w (availTotal C s)) 0 ∧
    (audio_queue_output_callback C s w).1.source_buffer = s.source_buffer ∧
    (audio_queue_output_callback C s w).1.source_buffer_start
      = (s.source_buffer_start + min w (availTotal C s)) % C ∧
    (audio_queue_output_callback C s w).1.source_buffer_end
      = if s.source_buffer_end = C ∧ C - s.source_buffer_start ≤ w then 0
        else s.source_buffer_end := by
  obtain ⟨buf, st, en⟩ := s
  replace hs : st < C := hs
  replace he : en ≤ C := he
  by_cases h1 : st < en
  · have hav : availTotal C ⟨buf, st, en⟩ = en - st := by
      simp [availTotal, h1]
    by_cases h2 : en - st > w
    · rw [callback_eq_case1 C buf st en w he h1 h2, hav]
      have hm : min w (en - st) = w := by omega
      rw [hm]
      refine ⟨rfl, ?_, rfl, ?_, ?_⟩
      · rw [Nat.sub_self, List.replicate_zero, List.append_nil,
          readSeg_as_mod buf C st w (by omega)]
      · show st + w = (st + w) % C
        rw [Nat.mod_eq_of_lt (by omega)]
      · show en = if en = C ∧ C - st ≤ w then 0 else en
        rw [if_neg (by omega)]
    · have hm : min w (en - st) = en - st := by omega
      by_cases h3 : en = C
      · rw [callback_eq_case2 C buf st en w h1 h2 h3, hav, hm]
        refine ⟨rfl, ?_, rfl, ?_, ?_⟩
        · rw [readSeg_as_mod buf C st (en - st) (by omega)]
        · show (0 : Nat) = (st + (en - st)) % C
          rw [show st + (en - st) = C from by omega, Nat.mod_self]
        · show (0 : Nat) = if en = C ∧ C - st ≤ w then 0 else en
          rw [if_pos ⟨h3, by omega⟩]
      · rw [callback_eq_case3 C buf st en w h1 h2 h3, hav, hm]
        refine ⟨rfl, ?_, rfl, ?_, ?_⟩
        · rw [readSeg_as_mod buf C st (en - st) (by omega)]
        · show en = (st + (en - st)) % C
          rw [show st + (en - st) = en from by omega,
            Nat.mod_eq_of_lt (by omega)]
        · show en = if en = C ∧ C - st ≤ w then 0 else en
          rw [if_neg (by tauto)]
  · have hav : availTotal C ⟨buf, st, en⟩ = C - st + en := by
      simp [availTotal, h1]
    by_cases h2 : C - st > w
    · rw [callback_eq_case4 C buf st en w hs he h1 h2, hav]
      have hm : min w (C - st + en) = w := by omega
      rw [hm]
      refine ⟨rfl, ?_, rfl, ?_, ?_⟩
      · rw [Nat.sub_self, List.replicate_zero, List.append_nil,
          readSeg_as_mod buf C st w (by omega)]
      · show st + w = (st + w) % C
        rw [Nat.mod_eq_of_lt (by omega)]
      · show en = if en = C ∧ C - st ≤ w then 0 else en
        rw [if_neg (by omega)]
    · by_cases h4 : 0 < w - (C - st) ∧ 0 < en
      · obtain ⟨h4a, h4b⟩ := h4
        rw [callback_eq_case5 C buf st en w hs h1 h2 h4a h4b, hav]
        have hm : min w (C - st + en)
            = (C - st) + min (w - (C - st)) en := by omega
        rw [hm]
        refine ⟨rfl, ?_, rfl, ?_, ?_⟩
        · rw [range_map_add, readSeg_as_mod buf C st (C - st) (by omega)]
          rw [range_map_congr
              (fun i => buf.getD ((st + ((C - st) + i)) % C) 0)
              (fun i => buf.getD (0 + i) 0)
              (min (w - (C - st)) en)
              (fun i hi => by
                show buf.getD ((st + ((C - st) + i)) % C) 0
                  = buf.getD (0 + i) 0
                rw [show st + ((C - st) + i) = C + i from by omega,
                  Nat.add_mod_left, Nat.mod_eq_of_lt (by omega),
                  Nat.zero_add])]
          rw [show w - ((C - st) + min (w - (C - st)) en)
              = w - (C - st) - min (w - (C - st)) en from by omega]
          rfl
        · show min (w - (C - st)) en = (st + ((C - st) + min (w - (C - st)) en)) % C
          rw [show st + ((C - st) + min (w - (C - st)) en)
              = C + min (w - (C - st)) en from by omega,
            Nat.add_mod_left, Nat.mod_eq_of_lt (by omega)]
        · show en = if en = C ∧ C - st ≤ w then 0 else en
          rw [if_neg (by omega)]
      · rw [callback_eq_case6 C buf st en w hs h1 h2 h4, hav]
        have hm : min w (C - st + en) = C - st := by omega
        rw [hm]
        refine ⟨rfl, ?_, rfl, ?_, ?_⟩
        · rw [readSeg_as_mod buf C st (C - st) (by omega)]
        · show (0 : Nat) = (st + (C - st)) % C
          rw [show st + (C - st) = C from by omega, Nat.mod_self]
        · show en = if en = C ∧ C - st ≤ w then 0 else en
          rw [if_neg (by omega)]

/-- One unfolding of nonempty send loop iterations. -/
theorem sendLoop_step (C fuel : Nat) (storage : List Nat) (e : Nat)
    (audio : List Nat) (ha : audio ≠ []) :
    sendLoop C (fuel + 1) storage e audio
      = (let e1 := if e = C then 0 else e
         let cp := if audio.length < C - e1 then audio.length else C - e1
         let r := sendLoop C fuel (writeSeg storage e1 (audio.take cp))
                    (e1 + cp) (audio.drop cp)
         ⟨r.storage, r.source_buffer_end, r.rest, cp :: r.segs⟩) := by
  rw [sendLoop]
  rw [if_neg (by simpa using ha)]

/-- Master characterisation of the send loop run with audio.length fuel on
a state inside the envelope: the whole chunk is consumed, storage keeps its
length, the write cursor lands one past the last written position, the last
min(n, C) chunk bytes sit circularly before the final cursor, positions at
circular distance at least n from the starting cursor are untouched, and
the loop runs at most n iterations with segments of size between 1 and C. -/
theorem sendLoop_spec (C : Nat) (hC : 0 < C) :
    ∀ (fuel : Nat) (storage : List Nat) (e : Nat) (audio : List Nat),
      storage.length = C → e ≤ C → audio.length ≤ fuel →
      (sendLoop C fuel storage e audio).rest = [] ∧
      (sendLoop C fuel storage e audio).storage.length = C ∧
      (sendLoop C fuel storage e audio).source_buffer_end
        = (if audio.length = 0 then e
           else (e % C + audio.length - 1) % C + 1) ∧
      (∀ j, audio.length - min audio.length C ≤ j → j < audio.length →
        (sendLoop C fuel storage e audio).storage.getD ((e + j) % C) 0
          = audio.getD j 0) ∧
      (∀ k, audio.length ≤ k → k < C →
        (sendLoop C fuel storage e audio).storage.getD ((e + k) % C) 0
          = storage.getD ((e + k) % C) 0) ∧
      (sendLoop C fuel storage e audio).segs.sum = audio.length ∧
      (sendLoop C fuel storage e audio).segs.length ≤ audio.length ∧
      (∀ x ∈ (sendLoop C fuel storage e audio).segs, 0 < x ∧ x ≤ C) := by
  intro fuel
  induction fuel with
  | zero =>
    intro storage e audio hlen he hf
    have ha : audio = [] := List.eq_nil_of_length_eq_zero (by omega)
    subst ha
    simp [sendLoop, hlen]
  | succ fuel ih =>
    intro storage e audio hlen he hf
    by_cases ha : audio = []
    · subst ha
      simp [sendLoop, hlen]
    · have han : 0 < audio.length := List.length_pos.mpr ha
      rw [sendLoop_step C fuel storage e audio ha]
      dsimp only
      set e1 := if e = C then 0 else e with he1def
      set cp := if audio.length < C - e1 then audio.length else C - e1
        with hcpdef
      have he1 : e1 < C := by
        rw [he1def]
        by_cases hec : e = C <;> simp [hec] <;> omega
      have he1m : e % C = e1 := by
        by_cases hec : e = C
        · rw [he1def, if_pos hec, hec, Nat.mod_self]
        · rw [he1def, if_neg hec, Nat.mod_eq_of_lt (by omega)]
      have hcp1 : 1 ≤ cp := by
        rw [hcpdef]
        by_cases hx : audio.length < C - e1 <;> simp [hx] <;> omega
      have hcpav : cp ≤ C - e1 := by
        rw [hcpdef]
        by_cases hx : audio.length < C - e1 <;> simp [hx] <;> omega
      have hcpn : cp ≤ audio.length := by
        rw [hcpdef]
        by_cases hx : audio.length < C - e1 <;> simp [hx] <;> omega
      set st1 := writeSeg storage e1 (audio.take cp) with hst1
      have hlen1 : st1.length = C := by
        rw [hst1, writeSeg_length, hlen]
      have hdn : (audio.drop cp).length = audio.length - cp := by
        simp
      obtain ⟨ihA, ihB, ihC, ihD, ihE, ihF, ihG, ihH⟩ :=
        ih st1 (e1 + cp) (audio.drop cp) hlen1 (by omega) (by omega)
      rw [hdn] at ihC ihD ihF ihG
      refine ⟨ihA, ihB, ?_, ?_, ?_, ?_, ?_, ?_⟩
      · -- final write cursor
        rw [ihC]
        rw [if_neg (show ¬ audio.length = 0 from by omega)]
        by_cases hnz : audio.length - cp = 0
        · have hle : e1 + audio.length ≤ C := by omega
          rw [if_pos hnz, he1m,
            show e1 + audio.length - 1 = e1 + (audio.length - 1) from by
              omega,
            Nat.mod_eq_of_lt (by omega)]
          omega
        · rw [if_neg hnz, he1m,
            show (e1 + cp) % C + (audio.length - cp) - 1
              = (e1 + cp) % C + (audio.length - cp - 1) from by omega,
            Nat.mod_add_mod,
            show e1 + cp + (audio.length - cp - 1)
              = e1 + audio.length - 1 from by omega]
      · -- the last min(n, C) bytes of the chunk are in place
        intro j hj1 hj2
        by_cases hj : cp ≤ j
        · have := ihD (j - cp) (by omega) (by omega)
          rw [show e1 + cp + (j - cp) = e1 + j from by omega] at this
          rw [getD_drop, show cp + (j - cp) = j from by omega] at this
          calc (sendLoop C fuel st1 (e1 + cp) (audio.drop cp)).storage.getD
                ((e + j) % C) 0
              = (sendLoop C fuel st1 (e1 + cp)
                  (audio.drop cp)).storage.getD ((e1 + j) % C) 0 := by
                rw [← Nat.mod_add_mod, he1m]
            _ = audio.getD j 0 := this
        · have hkey := ihE (C - cp + j) (by omega) (by omega)
          rw [show e1 + cp + (C - cp + j) = e1 + j + C from by omega,
            Nat.add_mod_right] at hkey
          have hpos : (e1 + j) % C = e1 + j := Nat.mod_eq_of_lt (by omega)
          calc (sendLoop C fuel st1 (e1 + cp) (audio.drop cp)).storage.getD
                ((e + j) % C) 0
              = (sendLoop C fuel st1 (e1 + cp)
                  (audio.drop cp)).storage.getD ((e1 + j) % C) 0 := by
                rw [← Nat.mod_add_mod, he1m]
            _ = st1.getD ((e1 + j) % C) 0 := hkey
            _ = audio.getD j 0 := by
                rw [hpos, hst1, writeSeg_getD _ _ _ _ (by omega),
                  if_pos (by rw [List.length_take]; omega)]
                rw [show e1 + j - e1 = j from by omega,
                  getD_take _ _ _ _ (by omega)]
      · -- positions at circular distance at least n are untouched
        intro k hk1 hk2
        have hkey := ihE (k - cp) (by omega) (by omega)
        rw [show e1 + cp + (k - cp) = e1 + k from by omega] at hkey
        have hmod : (e + k) % C = (e1 + k) % C := by
          rw [← Nat.mod_add_mod, he1m]
        rw [hmod, hkey, hst1]
        have hlt2 : e1 + k < 2 * C := by omega
        rw [mod_two_region C (e1 + k) hlt2]
        by_cases hx : e1 + k < C
        · rw [if_pos hx, writeSeg_getD _ _ _ _ (by omega),
            if_neg (by rw [List.length_take]; omega)]
        · rw [if_neg hx, writeSeg_getD _ _ _ _ (by omega),
            if_neg (by omega)]
      · -- the segment sizes add up to the chunk size
        simp only [List.sum_cons, ihF]
        omega
      · -- at most one iteration per byte
        simp only [List.length_cons]
        omega
      · -- each segment is nonempty and at most C bytes
        intro x hx
        rcases List.mem_cons.mp hx with hx | hx
        · subst hx
          exact ⟨hcp1, by omega⟩
        · exact ihH x hx

/-- One callback keeps the state inside the envelope. -/
theorem callback_preserves (C : Nat) (hC : 0 < C) (s : RB)
    (h : StateOK C s) (w : Nat) :
    StateOK C (audio_queue_output_callback C s w).1 := by
  obtain ⟨hl, hs, he⟩ := h
  obtain ⟨-, -, h3, h4, h5⟩ := callback_spec C hC s hs he w
  refine ⟨by rw [h3, hl], by rw [h4]; exact Nat.mod_lt _ hC, ?_⟩
  rw [h5]
  by_cases hx : s.source_buffer_end = C ∧ C - s.source_buffer_start ≤ w
  · rw [if_pos hx]; omega
  · rw [if_neg hx]; exact he

/-- One send keeps the state inside the envelope. -/
theorem send_preserves (C : Nat) (hC : 0 < C) (s : RB)
    (h : StateOK C s) (audio : List Nat) :
    StateOK C (coreaudio_output_send C s audio).1 := by
  obtain ⟨hl, hs, he⟩ := h
  obtain ⟨-, hB, hc, -, -, -, -, -⟩ := sendLoop_spec C hC audio.length
    s.source_buffer s.source_buffer_end audio hl he (Nat.le_refl _)
  refine ⟨hB, hs, ?_⟩
  show (sendLoop C audio.length s.source_buffer s.source_buffer_end
      audio).source_buffer_end ≤ C
  rw [hc]
  by_cases hx : audio.length = 0
  · rw [if_pos hx]; exact he
  · rw [if_neg hx]
    have := Nat.mod_lt (s.source_buffer_end % C + audio.length - 1) hC
    omega

/-- A whole run of operations keeps the state inside the envelope. -/
theorem runOps_preserves (C : Nat) (hC : 0 < C) (ops : List Op) :
    ∀ s : RB, StateOK C s → StateOK C (runOps C ops s) := by
  induction ops with
  | nil => intro s h; exact h
  | cons o ops ih =>
    intro s h
    cases o with
    | send a => exact ih _ (send_preserves C hC s h a)
    | feed w => exact ih _ (callback_preserves C hC s h w)

/-- When the derived occupancy is positive it equals exactly what one
callback can copy. -/
theorem availTotal_eq_occupancy (C : Nat) (hC : 0 < C) (s : RB)
    (h : StateOK C s) (hpos : 0 < occupancy C s) :
    availTotal C s = occupancy C s := by
  obtain ⟨hl, hs, he⟩ := h
  unfold availTotal occupancy at *
  by_cases h1 : s.source_buffer_start < s.source_buffer_end
  · rw [if_pos h1]
    by_cases h2 : C + s.source_buffer_end - s.source_buffer_start < 2 * C
    · rw [mod_two_region C _ h2] at hpos
      by_cases h3 : C + s.source_buffer_end - s.source_buffer_start < C
      · rw [if_pos h3] at hpos
        omega
      · rw [if_neg h3] at hpos
        rw [mod_two_region C _ h2, if_neg h3]
        omega
    · exfalso
      rw [show C + s.source_buffer_end - s.source_buffer_start = 2 * C
          from by omega] at hpos
      simp [Nat.mul_mod_right] at hpos
  · rw [if_neg h1]
    have h2 : C + s.source_buffer_end - s.source_buffer_start < 2 * C := by
      omega
    rw [mod_two_region C _ h2] at hpos
    rw [mod_two_region C _ h2]
    by_cases h3 : C + s.source_buffer_end - s.source_buffer_start < C
    · rw [if_pos h3] at hpos
      rw [if_pos h3]
      omega
    · rw [if_neg h3] at hpos
      rw [if_neg h3]
      omega

/-- When the derived occupancy is zero, one callback can still copy a full
capacity of bytes: the code cannot see an empty buffer. -/
theorem availTotal_eq_capacity (C : Nat) (hC : 0 < C) (s : RB)
    (h : StateOK C s) (hzero : occupancy C s = 0) :
    availTotal C s = C := by
  obtain ⟨hl, hs, he⟩ := h
  unfold availTotal occupancy at *
  by_cases h2 : C + s.source_buffer_end - s.source_buffer_start < 2 * C
  · rw [mod_two_region C _ h2] at hzero
    by_cases h3 : C + s.source_buffer_end - s.source_buffer_start < C
    · rw [if_pos h3] at hzero
      omega
    · rw [if_neg h3] at hzero
      by_cases h1 : s.source_buffer_start < s.source_buffer_end
      · rw [if_pos h1]
        omega
      · rw [if_neg h1]
        omega
  · rw [if_pos (by omega)]
    omega

/-- A block always comes back with exactly the requested length. -/
theorem callback_block_length (C : Nat) (hC : 0 < C) (s : RB)
    (hs : s.source_buffer_start < C) (he : s.source_buffer_end ≤ C)
    (w : Nat) :
    (audio_queue_output_callback C s w).2.1.length = w := by
  obtain ⟨h1, h2, -, -, -⟩ := callback_spec C hC s hs he w
  rw [h2]
  simp only [List.length_append, List.length_map, List.length_range,
    List.length_replicate]
  omega

/-- A callback for at most the stored number of bytes returns exactly the
prefix of the stored list and leaves the rest stored. -/
theorem callback_Rinv (C : Nat) (hC : 0 < C) (s : RB) (L : List Nat)
    (h : Rinv C s L) (w : Nat) (hw : w ≤ L.length) :
    (audio_queue_output_callback C s w).2.1 = L.take w ∧
    (audio_queue_output_callback C s w).2.2 = w ∧
    Rinv C (audio_queue_output_callback C s w).1 (L.drop w) := by
  obtain ⟨hl, hs, he, hLc, hdisj, hbytes⟩ := h
  have hAv : L.length = 0 ∨ availTotal C s = L.length := by
    rcases hdisj with hd | hd
    · by_cases hz : L.length = 0
      · exact Or.inl hz
      · right
        unfold availTotal
        rw [if_pos (by omega)]
        omega
    · right
      unfold availTotal
      rw [if_neg (by omega)]
      omega
  have hcp : min w (availTotal C s) = w := by
    rcases hAv with hd | hd
    · omega
    · omega
  obtain ⟨hc1, hc2, hc3, hc4, hc5⟩ := callback_spec C hC s hs he w
  rw [hcp] at hc1 hc2 hc4
  rw [Nat.sub_self, List.replicate_zero, List.append_nil] at hc2
  have hblock : (audio_queue_output_callback C s w).2.1 = L.take w := by
    rw [hc2]
    apply eq_of_getD
    · simp only [List.length_map, List.length_range, List.length_take]
      omega
    · intro i hi
      simp only [List.length_map, List.length_range] at hi
      rw [range_map_getD _ _ _ _ hi, getD_take _ _ _ _ hi,
        hbytes i (by omega)]
  refine ⟨hblock, hc1, ?_, ?_, ?_, ?_, ?_, ?_⟩
  · rw [hc3, hl]
  · rw [hc4]
    exact Nat.mod_lt _ hC
  · rw [hc5]
    by_cases hx : s.source_buffer_end = C ∧
        C - s.source_buffer_start ≤ w
    · rw [if_pos hx]; omega
    · rw [if_neg hx]; exact he
  · simp only [List.length_drop]
    omega
  · rw [hc4, hc5]
    have hb2 : s.source_buffer_start + w < 2 * C := by omega
    rw [mod_two_region C _ hb2]
    simp only [List.length_drop]
    by_cases hx : s.source_buffer_end = C ∧ C - s.source_buffer_start ≤ w
    · rw [if_pos hx]
      by_cases hy : s.source_buffer_start + w < C
      · rw [if_pos hy]
        rcases hdisj with hd | hd <;> omega
      · rw [if_neg hy]
        rcases hdisj with hd | hd <;> omega
    · rw [if_neg hx]
      by_cases hy : s.source_buffer_start + w < C
      · rw [if_pos hy]
        rcases hdisj with hd | hd <;> omega
      · rw [if_neg hy]
        rcases hdisj with hd | hd <;> omega
  · intro i hi
    simp only [List.length_drop] at hi
    rw [hc3, hc4, getD_drop]
    have hpos : ((s.source_buffer_start + w) % C + i) % C
        = (s.source_buffer_start + (w + i)) % C := by
      rw [Nat.mod_add_mod, Nat.add_assoc]
    rw [hpos]
    exact hbytes (w + i) (by omega)

/-- A send of a chunk that still fits appends the chunk to the stored
list. -/
theorem send_Rinv (C : Nat) (hC : 0 < C) (s : RB) (L : List Nat)
    (h : Rinv C s L) (audio : List Nat)
    (hroom : L.length + audio.length ≤ C) :
    Rinv C (coreaudio_output_send C s audio).1 (L ++ audio) := by
  obtain ⟨hl, hs, he, hLc, hdisj, hbytes⟩ := h
  obtain ⟨ihA, ihB, ihC, ihD, ihE, ihF, ihG, ihH⟩ := sendLoop_spec C hC
    audio.length s.source_buffer s.source_buffer_end audio hl he
    (Nat.le_refl _)
  have hE1 : s.source_buffer_end % C
      = (if s.source_buffer_end = C then 0 else s.source_buffer_end) := by
    by_cases hec : s.source_buffer_end = C
    · rw [if_pos hec, hec, Nat.mod_self]
    · rw [if_neg hec, Nat.mod_eq_of_lt (by omega)]
  refine ⟨ihB, hs, ?_, ?_, ?_, ?_⟩
  · show (sendLoop C audio.length s.source_buffer s.source_buffer_end
        audio).source_buffer_end ≤ C
    rw [ihC]
    by_cases hx : audio.length = 0
    · rw [if_pos hx]; exact he
    · rw [if_neg hx]
      have := Nat.mod_lt (s.source_buffer_end % C + audio.length - 1) hC
      omega
  · simp only [List.length_append]
    omega
  · show (sendLoop C audio.length s.source_buffer s.source_buffer_end
          audio).source_buffer_end
        = s.source_buffer_start + (L ++ audio).length ∨
      (sendLoop C audio.length s.source_buffer s.source_buffer_end
          audio).source_buffer_end + C
        = s.source_buffer_start + (L ++ audio).length
    rw [ihC]
    simp only [List.length_append]
    by_cases hx : audio.length = 0
    · rw [if_pos hx]
      rcases hdisj with hd | hd
      · left; omega
      · right; omega
    · rw [if_neg hx, hE1]
      rw [show (if s.source_buffer_end = C then 0 else s.source_buffer_end)
            + audio.length - 1
          = (if s.source_buffer_end = C then 0 else s.source_buffer_end)
            + (audio.length - 1) from by omega]
      by_cases hen : s.source_buffer_end = C
      · rw [if_pos hen, Nat.zero_add, Nat.mod_eq_of_lt (by omega)]
        rcases hdisj with hd | hd <;> omega
      · rw [if_neg hen]
        have hb2 : s.source_buffer_end + (audio.length - 1) < 2 * C := by
          omega
        rw [mod_two_region C _ hb2]
        by_cases hA : s.source_buffer_end + (audio.length - 1) < C
        · rw [if_pos hA]
          rcases hdisj with hd | hd <;> omega
        · rw [if_neg hA]
          rcases hdisj with hd | hd <;> omega
  · intro i hi
    simp only [List.length_append] at hi
    show (sendLoop C audio.length s.source_buffer s.source_buffer_end
        audio).storage.getD ((s.source_buffer_start + i) % C) 0
      = (L ++ audio).getD i 0
    by_cases hiL : i < L.length
    · have hkey := ihE (C - L.length + i) (by omega) (by omega)
      have hploc : (s.source_buffer_end + (C - L.length + i)) % C
          = (s.source_buffer_start + i) % C := by
        rcases hdisj with hd | hd
        · rw [show s.source_buffer_end + (C - L.length + i)
              = s.source_buffer_start + i + C from by omega,
            Nat.add_mod_right]
        · rw [show s.source_buffer_end + (C - L.length + i)
              = s.source_buffer_start + i from by omega]
      rw [hploc] at hkey
      rw [hkey, hbytes i hiL, getD_append_left _ _ _ _ hiL]
    · have hkey := ihD (i - L.length) (by omega) (by omega)
      have hploc : (s.source_buffer_end + (i - L.length)) % C
          = (s.source_buffer_start + i) % C := by
        rcases hdisj with hd | hd
        · rw [show s.source_buffer_end + (i - L.length)
              = s.source_buffer_start + i from by omega]
        · rw [show s.source_buffer_start + i
              = s.source_buffer_end + (i - L.length) + C from by omega,
            Nat.add_mod_right]
      rw [hploc] at hkey
      rw [hkey, getD_append_right _ _ _ _ (by omega)]

/-- Sending a list of chunks that jointly still fit appends their
concatenation to the stored list. -/
theorem sendAll_Rinv (C : Nat) (hC : 0 < C) (chunks : List (List Nat)) :
    ∀ (s : RB) (L : List Nat), Rinv C s L →
      L.length + (chunks.map List.length).sum ≤ C →
      Rinv C (sendAll C chunks s) (L ++ chunks.flatten) := by
  induction chunks with
  | nil =>
    intro s L h hroom
    simpa [sendAll] using h
  | cons c chunks ih =>
    intro s L h hroom
    simp only [List.map_cons, List.sum_cons] at hroom
    have h1 := send_Rinv C hC s L h c (by omega)
    have h2 := ih (coreaudio_output_send C s c).1 (L ++ c) h1
      (by simp only [List.length_append]; omega)
    simpa [sendAll, List.append_assoc] using h2

/-- Reading sizes that jointly do not exceed the stored amount delivers
exactly the corresponding prefix, block by block. -/
theorem readAll_Rinv (C : Nat) (hC : 0 < C) (ws : List Nat) :
    ∀ (s : RB) (L : List Nat), Rinv C s L → ws.sum ≤ L.length →
      (readAll C ws s).2.flatten = L.take ws.sum := by
  induction ws with
  | nil =>
    intro s L h hsum
    simp [readAll]
  | cons w ws ih =>
    intro s L h hsum
    simp only [List.sum_cons] at hsum
    obtain ⟨hb, -, hr⟩ := callback_Rinv C hC s L h w (by omega)
    have h2 := ih (audio_queue_output_callback C s w).1 (L.drop w) hr
      (by simp only [List.length_drop]; omega)
    simp only [readAll, List.flatten_cons, hb, h2, List.length_drop]
    rw [← List.take_add]
    rfl

/-- C1: with capacity 16 and block size 4, from the freshly initialised
buffer: after ingesting bytes 1..8, the first feed returns [1,2,3,4], the
second [5,6,7,8], the third (no new data) [0,0,0,0]; after then ingesting
the twenty bytes 9..28 the next four feeds return [13,14,15,16],
[17,18,19,20], [21,22,23,24] and [25,26,27,28]. -/
theorem c1_concrete_scenario :
    (readAll 16 [4, 4, 4]
        (coreaudio_output_send 16 (coreaudio_output_init 16)
          ((List.range 8).map (· + 1))).1).2
      = [[1, 2, 3, 4], [5, 6, 7, 8], [0, 0, 0, 0]] ∧
    (readAll 16 [4, 4, 4, 4]
        (coreaudio_output_send 16
          (readAll 16 [4, 4, 4]
            (coreaudio_output_send 16 (coreaudio_output_init 16)
              ((List.range 8).map (· + 1))).1).1
          ((List.range 20).map (· + 9))).1).2
      = [[13, 14, 15, 16], [17, 18, 19, 20], [21, 22, 23, 24],
         [25, 26, 27, 28]] := by
  decide

/-- C9: ingesting a zero length chunk is a no-op (the while loop body never
runs): the state is returned unchanged, with the same return value 0 that
every chunk gets. -/
theorem c9_empty_send_noop (C : Nat) (s : RB) :
    coreaudio_output_send C s [] = (s, 0) ∧
      ∀ audio : List Nat, (coreaudio_output_send C s audio).2 = 0 := by
  exact ⟨rfl, fun _ => rfl⟩

/-- C10: whenever the two cursors are equal, a feed treats the buffer as
completely full: it copies the requested w bytes (w at most C) straight out
of storage starting at the read cursor, advances the read cursor by w
modulo C, and reports no shortfall for those bytes. -/
theorem c10_full_when_equal (C : Nat) (hC : 0 < C) (s : RB)
    (h : StateOK C s)
    (heq : s.source_buffer_start = s.source_buffer_end)
    (w : Nat) (hw : w ≤ C) :
    (audio_queue_output_callback C s w).2.2 = w ∧
    (audio_queue_output_callback C s w).2.1
      = (List.range w).map
          (fun i => s.source_buffer.getD ((s.source_buffer_start + i) % C) 0) ∧
    (audio_queue_output_callback C s w).2.1.length = w ∧
    (audio_queue_output_callback C s w).1.source_buffer = s.source_buffer ∧
    (audio_queue_output_callback C s w).1.source_buffer_start
      = (s.source_buffer_start + w) % C := by
  obtain ⟨hl, hs, he⟩ := h
  have havail : availTotal C s = C := by
    unfold availTotal
    rw [if_neg (by omega)]
    omega
  obtain ⟨h1, h2, h3, h4, -⟩ := callback_spec C hC s hs he w
  rw [havail] at h1 h2 h4
  have hm : min w C = w := by omega
  rw [hm] at h1 h2 h4
  rw [Nat.sub_self, List.replicate_zero, List.append_nil] at h2
  refine ⟨h1, h2, ?_, h3, h4⟩
  rw [h2]
  simp

/-- Witness for c10_full_when_equal at C = 16, cursors at 5, w = 7. -/
theorem c10_full_when_equal_witness :
    ((0 : Nat) < 16 ∧ StateOK 16 ⟨List.replicate 16 3, 5, 5⟩ ∧
      (5 : Nat) = 5 ∧ (7 : Nat) ≤ 16) ∧
    ((audio_queue_output_callback 16 ⟨List.replicate 16 3, 5, 5⟩ 7).2.2 = 7 ∧
     (audio_queue_output_callback 16 ⟨List.replicate 16 3, 5, 5⟩ 7).2.1
       = (List.range 7).map
           (fun i => (List.replicate 16 3).getD ((5 + i) % 16) 0) ∧
     (audio_queue_output_callback 16 ⟨List.replicate 16 3, 5, 5⟩ 7).2.1.length
       = 7 ∧
     (audio_queue_output_callback 16 ⟨List.replicate 16 3, 5, 5⟩
        7).1.source_buffer = List.replicate 16 3 ∧
     (audio_queue_output_callback 16 ⟨List.replicate 16 3, 5, 5⟩
        7).1.source_buffer_start = (5 + 7) % 16) :=
  ⟨⟨by decide, by decide, rfl, by decide⟩,
   c10_full_when_equal 16 (by decide) ⟨List.replicate 16 3, 5, 5⟩
     (by decide) rfl 7 (by decide)⟩

/-- C8: on a chunk of positive size the send loop finishes within
audio.length iterations having consumed the whole chunk, each copied
segment being nonempty and at most C bytes, and the segment sizes adding up
to the chunk size. -/
theorem c8_send_terminates (C : Nat) (hC : 0 < C) (s : RB)
    (h : StateOK C s) (audio : List Nat) (hpos : 0 < audio.length) :
    (sendLoop C audio.length s.source_buffer s.source_buffer_end
        audio).rest = [] ∧
    (sendLoop C audio.length s.source_buffer s.source_buffer_end
        audio).segs.sum = audio.length ∧
    (sendLoop C audio.length s.source_buffer s.source_buffer_end
        audio).segs.length ≤ audio.length ∧
    (∀ x ∈ (sendLoop C audio.length s.source_buffer s.source_buffer_end
        audio).segs, 0 < x ∧ x ≤ C) := by
  obtain ⟨hl, hs, he⟩ := h
  obtain ⟨hA, -, -, -, -, hF, hG, hH⟩ := sendLoop_spec C hC audio.length
    s.source_buffer s.source_buffer_end audio hl he (Nat.le_refl _)
  exact ⟨hA, hF, hG, hH⟩

/-- Witness for c8_send_terminates: a 40 byte chunk into the 16 byte
buffer runs in three segments 16, 16, 8. -/
theorem c8_send_terminates_witness :
    ((0 : Nat) < 16 ∧ StateOK 16 (coreaudio_output_init 16) ∧
      (0 : Nat) < (List.replicate 40 2).length) ∧
    ((sendLoop 16 (List.replicate 40 2).length
        (coreaudio_output_init 16).source_buffer
        (coreaudio_output_init 16).source_buffer_end
        (List.replicate 40 2)).rest = [] ∧
     (sendLoop 16 (List.replicate 40 2).length
        (coreaudio_output_init 16).source_buffer
        (coreaudio_output_init 16).source_buffer_end
        (List.replicate 40 2)).segs.sum = (List.replicate 40 2).length ∧
     (sendLoop 16 (List.replicate 40 2).length
        (coreaudio_output_init 16).source_buffer
        (coreaudio_output_init 16).source_buffer_end
        (List.replicate 40 2)).segs.length ≤ (List.replicate 40 2).length ∧
     (∀ x ∈ (sendLoop 16 (List.replicate 40 2).length
        (coreaudio_output_init 16).source_buffer
        (coreaudio_output_init 16).source_buffer_end
        (List.replicate 40 2)).segs, 0 < x ∧ x ≤ 16)) :=
  ⟨⟨by decide, by decide, by decide⟩,
   c8_send_terminates 16 (by decide) (coreaudio_output_init 16) (by decide)
     (List.replicate 40 2) (by decide)⟩

/-- C6 counterexample: from the initialised 16 byte buffer, ingesting a
full 16 byte chunk leaves the write cursor at 16 = C, outside [0, C): the
claim that both cursors always stay strictly below C after every completed
operation fails for the write cursor. -/
theorem c6_counterexample :
    ((coreaudio_output_send 16 (coreaudio_output_init 16)
        (List.replicate 16 7)).1).source_buffer_end = 16 ∧
    ¬ (((coreaudio_output_send 16 (coreaudio_output_init 16)
        (List.replicate 16 7)).1).source_buffer_end < 16) := by
  decide

/-- C6 amended: after any sequence of completed ingest and feed operations
from the initialised buffer, the read cursor stays in [0, C) and the write
cursor stays in [0, C]; the write cursor can sit exactly at C (see the
counterexample) and is only normalised to 0 by the next operation. -/
theorem c6_cursor_ranges_amended (C : Nat) (hC : 0 < C) (ops : List Op) :
    (runOps C ops (coreaudio_output_init C)).source_buffer_start < C ∧
    (runOps C ops (coreaudio_output_init C)).source_buffer_end ≤ C := by
  have h := runOps_preserves C hC ops (coreaudio_output_init C)
    ⟨by simp [coreaudio_output_init], hC, by simp [coreaudio_output_init]⟩
  exact ⟨h.2.1, h.2.2⟩

/-- Witness for c6_cursor_ranges_amended on a small concrete run. -/
theorem c6_cursor_ranges_amended_witness :
    (0 : Nat) < 16 ∧
    ((runOps 16 [Op.send [1, 2, 3], Op.feed 2]
        (coreaudio_output_init 16)).source_buffer_start < 16 ∧
     (runOps 16 [Op.send [1, 2, 3], Op.feed 2]
        (coreaudio_output_init 16)).source_buffer_end ≤ 16) :=
  ⟨by decide, c6_cursor_ranges_amended 16 (by decide)
    [Op.send [1, 2, 3], Op.feed 2]⟩

/-- C2 counterexample: exampleState is reachable, has derived occupancy 0
(less than the block size 4), yet the feed returns the stale bytes
[1, 2, 3, 4] instead of the zero block that the claim (zero available real
bytes followed by zero padding) predicts. -/
theorem c2_counterexample :
    occupancy 16 exampleState = 0 ∧ (0 : Nat) < 4 ∧
    (audio_queue_output_callback 16 exampleState 4).2.1 = [1, 2, 3, 4] ∧
    (audio_queue_output_callback 16 exampleState 4).2.1
      ≠ List.replicate 4 0 := by
  decide

/-- C2 amended: on a state inside the envelope with at least one but fewer
than B derived-occupancy bytes available, the feed returns the occupancy
many real bytes in circular order from the read cursor followed by zero
bytes, the block length is exactly B, and exactly occupancy bytes were
copied.  (The original claim also covered occupancy zero, where the code
instead treats the buffer as full; see the counterexample.) -/
theorem c2_underrun_fill_amended (C B : Nat) (hC : 0 < C) (s : RB)
    (h : StateOK C s) (h1 : 0 < occupancy C s) (h2 : occupancy C s < B) :
    (audio_queue_output_callback C s B).2.1
      = (List.range (occupancy C s)).map
          (fun i => s.source_buffer.getD ((s.source_buffer_start + i) % C) 0)
        ++ List.replicate (B - occupancy C s) 0 ∧
    (audio_queue_output_callback C s B).2.1.length = B ∧
    (audio_queue_output_callback C s B).2.2 = occupancy C s := by
  have havail := availTotal_eq_occupancy C hC s h h1
  obtain ⟨hl, hs, he⟩ := h
  obtain ⟨hc1, hc2, -, -, -⟩ := callback_spec C hC s hs he B
  rw [havail] at hc1 hc2
  have hm : min B (occupancy C s) = occupancy C s := by omega
  rw [hm] at hc1 hc2
  refine ⟨hc2, ?_, hc1⟩
  rw [hc2]
  simp only [List.length_append, List.length_map, List.length_range,
    List.length_replicate]
  omega

/-- Witness for c2_underrun_fill_amended: two bytes available, block size
five. -/
theorem c2_underrun_fill_amended_witness :
    ((0 : Nat) < 16 ∧ StateOK 16 ⟨(List.range 16).map (· + 1), 2, 4⟩ ∧
      0 < occupancy 16 ⟨(List.range 16).map (· + 1), 2, 4⟩ ∧
      occupancy 16 ⟨(List.range 16).map (· + 1), 2, 4⟩ < 5) ∧
    ((audio_queue_output_callback 16 ⟨(List.range 16).map (· + 1), 2, 4⟩
        5).2.1
      = (List.range (occupancy 16 ⟨(List.range 16).map (· + 1), 2, 4⟩)).map
          (fun i => ((List.range 16).map (· + 1)).getD ((2 + i) % 16) 0)
        ++ List.replicate
            (5 - occupancy 16 ⟨(List.range 16).map (· + 1), 2, 4⟩) 0 ∧
     (audio_queue_output_callback 16 ⟨(List.range 16).map (· + 1), 2, 4⟩
        5).2.1.length = 5 ∧
     (audio_queue_output_callback 16 ⟨(List.range 16).map (· + 1), 2, 4⟩
        5).2.2 = occupancy 16 ⟨(List.range 16).map (· + 1), 2, 4⟩) :=
  ⟨⟨by decide, by decide, by decide, by decide⟩,
   c2_underrun_fill_amended 16 5 (by decide)
     ⟨(List.range 16).map (· + 1), 2, 4⟩ (by decide) (by decide)
     (by decide)⟩

/-- C5 counterexample: exampleState is reachable and has derived occupancy
0, yet a feed of 4 bytes copies 4 bytes out of the buffer with shortfall 0,
not 0 bytes with shortfall 4 as the claim states. -/
theorem c5_counterexample :
    occupancy 16 exampleState = 0 ∧
    (audio_queue_output_callback 16 exampleState 4).2.2 = 4 ∧
    ¬ ((audio_queue_output_callback 16 exampleState 4).2.2 = 0 ∧
       4 - (audio_queue_output_callback 16 exampleState 4).2.2 = 4) := by
  decide

/-- C5 amended: a feed of w bytes on a state inside the envelope whose
derived occupancy is zero never blocks, but instead of copying zero bytes
it copies min(w, C) stale bytes out of storage; the reported shortfall is
w - min(w, C) rather than w, and the returned block still has length w. -/
theorem c5_never_blocks_amended (C : Nat) (hC : 0 < C) (s : RB)
    (h : StateOK C s) (hzero : occupancy C s = 0) (w : Nat) :
    (audio_queue_output_callback C s w).2.2 = min w C ∧
    (audio_queue_output_callback C s w).2.1.length = w := by
  have havail := availTotal_eq_capacity C hC s h hzero
  obtain ⟨hl, hs, he⟩ := h
  obtain ⟨hc1, hc2, -, -, -⟩ := callback_spec C hC s hs he w
  rw [havail] at hc1 hc2
  refine ⟨hc1, ?_⟩
  rw [hc2]
  simp only [List.length_append, List.length_map, List.length_range,
    List.length_replicate]
  omega

/-- Witness for c5_never_blocks_amended: twenty bytes requested from an
empty-looking 16 byte buffer copy 16 stale bytes. -/
theorem c5_never_blocks_amended_witness :
    ((0 : Nat) < 16 ∧ StateOK 16 ⟨List.replicate 16 9, 3, 3⟩ ∧
      occupancy 16 ⟨List.replicate 16 9, 3, 3⟩ = 0) ∧
    ((audio_queue_output_callback 16 ⟨List.replicate 16 9, 3, 3⟩ 20).2.2
       = min 20 16 ∧
     (audio_queue_output_callback 16 ⟨List.replicate 16 9, 3, 3⟩
        20).2.1.length = 20) :=
  ⟨⟨by decide, by decide, by decide⟩,
   c5_never_blocks_amended 16 (by decide) ⟨List.replicate 16 9, 3, 3⟩
     (by decide) (by decide) 20⟩

/-- C4: starting from a drained state (cursors equal, inside the
envelope), ingesting any sequence of chunks whose total size stays within
the capacity and then reading any sequence of sizes totalling exactly that
amount returns the ingested bytes unchanged and in order: the concatenation
of the delivered blocks equals the concatenation of the chunks. -/
theorem c4_capacity_roundtrip (C : Nat) (hC : 0 < C) (s : RB)
    (h : StateOK C s) (hdrain : s.source_buffer_start = s.source_buffer_end)
    (chunks : List (List Nat))
    (htotal : (chunks.map List.length).sum ≤ C)
    (ws : List Nat) (hws : ws.sum = (chunks.map List.length).sum) :
    (readAll C ws (sendAll C chunks s)).2.flatten = chunks.flatten := by
  have h0 : Rinv C s [] := by
    refine ⟨h.1, h.2.1, h.2.2, by simp,
      Or.inl (by simpa using hdrain.symm), ?_⟩
    intro i hi
    simp at hi
  have h1 := sendAll_Rinv C hC chunks s [] h0 (by simpa using htotal)
  rw [List.nil_append] at h1
  have h2 := readAll_Rinv C hC ws (sendAll C chunks s) chunks.flatten h1
    (by rw [hws, List.length_flatten])
  rw [h2, hws, ← List.length_flatten, List.take_length]

/-- Witness for c4_capacity_roundtrip: three chunks totalling eight bytes
into the fresh 16 byte buffer, read back as blocks of 5, 0 and 3 bytes. -/
theorem c4_capacity_roundtrip_witness :
    ((0 : Nat) < 16 ∧ StateOK 16 (coreaudio_output_init 16) ∧
      (coreaudio_output_init 16).source_buffer_start
        = (coreaudio_output_init 16).source_buffer_end ∧
      (([[1, 2, 3], [4, 5, 6, 7], [8]] : List (List Nat)).map
        List.length).sum ≤ 16 ∧
      ([5, 0, 3] : List Nat).sum
        = (([[1, 2, 3], [4, 5, 6, 7], [8]] : List (List Nat)).map
            List.length).sum) ∧
    (readAll 16 [5, 0, 3]
        (sendAll 16 [[1, 2, 3], [4, 5, 6, 7], [8]]
          (coreaudio_output_init 16))).2.flatten
      = ([[1, 2, 3], [4, 5, 6, 7], [8]] : List (List Nat)).flatten :=
  ⟨⟨by decide, by decide, rfl, by decide, by decide⟩,
   c4_capacity_roundtrip 16 (by decide) (coreaudio_output_init 16)
     (by decide) rfl [[1, 2, 3], [4, 5, 6, 7], [8]] (by decide)
     [5, 0, 3] (by decide)⟩

/-- Base change under a common modulus. -/
theorem mod_congr_add (C a b x : Nat) (h : a % C = b % C) :
    (a + x) % C = (b + x) % C := by
  rw [← Nat.mod_add_mod, h, Nat.mod_add_mod]

/-- One callback can copy at most C bytes. -/
theorem availTotal_le (C : Nat) (s : RB) (h : StateOK C s) :
    availTotal C s ≤ C := by
  obtain ⟨-, hs, he⟩ := h
  unfold availTotal
  by_cases h1 : s.source_buffer_start < s.source_buffer_end
  · rw [if_pos h1]; omega
  · rw [if_neg h1]; omega

/-- Advancing the read cursor by everything available lands on the write
cursor modulo C. -/
theorem availTotal_advance (C : Nat) (hC : 0 < C) (s : RB)
    (h : StateOK C s) :
    (s.source_buffer_start + availTotal C s) % C
      = s.source_buffer_end % C := by
  obtain ⟨-, hs, he⟩ := h
  unfold availTotal
  by_cases h1 : s.source_buffer_start < s.source_buffer_end
  · rw [if_pos h1, show s.source_buffer_start
        + (s.source_buffer_end - s.source_buffer_start)
      = s.source_buffer_end from by omega]
  · rw [if_neg h1, show s.source_buffer_start
        + (C - s.source_buffer_start + s.source_buffer_end)
      = s.source_buffer_end + C from by omega, Nat.add_mod_right]

/-- The read cursor advanced by the derived occupancy lands on the write
cursor modulo C. -/
theorem occupancy_cursor (C : Nat) (hC : 0 < C) (s : RB)
    (h : StateOK C s) :
    (s.source_buffer_start + occupancy C s) % C
      = s.source_buffer_end % C := by
  obtain ⟨-, hs, he⟩ := h
  unfold occupancy
  rw [Nat.add_mod_mod, show s.source_buffer_start
      + (C + s.source_buffer_end - s.source_buffer_start)
    = C + s.source_buffer_end from by omega, Nat.add_mod_left]

/-- C7 counterexample: after ingesting 1..16 into the fresh 16 byte buffer
and draining it with four 4 byte feeds, the fifth and sixth feeds are
consecutive feeds with no ingest between them, yet they return the stale
blocks [1,2,3,4] and [5,6,7,8] instead of silence. -/
theorem c7_counterexample :
    (readAll 16 (List.replicate 6 4)
        (coreaudio_output_send 16 (coreaudio_output_init 16)
          ((List.range 16).map (· + 1))).1).2.getD 4 [] = [1, 2, 3, 4] ∧
    (readAll 16 (List.replicate 6 4)
        (coreaudio_output_send 16 (coreaudio_output_init 16)
          ((List.range 16).map (· + 1))).1).2.getD 5 [] = [5, 6, 7, 8] ∧
    (readAll 16 (List.replicate 6 4)
        (coreaudio_output_send 16 (coreaudio_output_init 16)
          ((List.range 16).map (· + 1))).1).2.getD 4 []
      ≠ List.replicate 4 0 ∧
    (readAll 16 (List.replicate 6 4)
        (coreaudio_output_send 16 (coreaudio_output_init 16)
          ((List.range 16).map (· + 1))).1).2.getD 5 []
      ≠ List.replicate 4 0 := by
  decide

/-- C7 amended: on a state inside the envelope whose storage is entirely
zero (in particular any state reachable using only zero valued audio, such
as the freshly initialised buffer), N consecutive feeds with no ingests
between them return N full blocks of silence.  On reachable states with
nonzero stale storage this fails; see the counterexample. -/
theorem c7_silence_amended (C : Nat) (hC : 0 < C) (B N : Nat) :
    ∀ s : RB, StateOK C s → (∀ x ∈ s.source_buffer, x = 0) →
      ∀ b ∈ (readAll C (List.replicate N B) s).2, b = List.replicate B 0 := by
  induction N with
  | zero =>
    intro s h hzero b hb
    simp [readAll] at hb
  | succ N ih =>
    intro s h hzero b hb
    rw [List.replicate_succ] at hb
    simp only [readAll, List.mem_cons] at hb
    rcases hb with hb | hb
    · subst hb
      obtain ⟨hl, hs, he⟩ := h
      obtain ⟨-, hc2, -, -, -⟩ := callback_spec C hC s hs he B
      rw [hc2]
      refine List.eq_replicate_iff.mpr ⟨?_, ?_⟩
      · simp only [List.length_append, List.length_map, List.length_range,
          List.length_replicate]
        omega
      · intro x hx
        rcases List.mem_append.mp hx with hx | hx
        · obtain ⟨i, -, hieq⟩ := List.mem_map.mp hx
          rw [← hieq]
          exact getD_zero_of_all_zero _ hzero _
        · exact List.eq_of_mem_replicate hx
    · have h2 := callback_preserves C hC s h B
      have hz2 : ∀ x ∈ (audio_queue_output_callback C s
          B).1.source_buffer, x = 0 := by
        obtain ⟨hl, hs, he⟩ := h
        obtain ⟨-, -, hc3, -, -⟩ := callback_spec C hC s hs he B
        rw [hc3]
        exact hzero
      exact ih _ h2 hz2 b hb

/-- Witness for c7_silence_amended: two feeds of three bytes on an all-zero
12 byte buffer with both cursors at 5. -/
theorem c7_silence_amended_witness :
    ((0 : Nat) < 12 ∧ StateOK 12 ⟨List.replicate 12 0, 5, 5⟩ ∧
      (∀ x ∈ (⟨List.replicate 12 0, 5, 5⟩ : RB).source_buffer, x = 0)) ∧
    (∀ b ∈ (readAll 12 (List.replicate 2 3)
        (⟨List.replicate 12 0, 5, 5⟩ : RB)).2, b = List.replicate 3 0) :=
  ⟨⟨by decide, by decide, by decide⟩,
   c7_silence_amended 12 (by decide) 3 2 ⟨List.replicate 12 0, 5, 5⟩
     (by decide) (by decide)⟩

/-- C3: on any envelope state, ingesting a chunk larger than the remaining
free space C - occupancy behaves as the overwrite policy describes:
(1) the most recent min(n, C) chunk bytes sit in storage, in order, in the
    C positions circularly preceding the new write cursor;
(2) for chunks that fit in C, the oldest n - free unread bytes are
    overwritten with the corresponding chunk bytes;
(3) every other unread byte is untouched;
(4) the most recent min(n, C) chunk bytes are recovered, in order, by
    subsequent feed calls: after one draining feed of C bytes, the next
    C byte feed returns a block whose last min(n, C) bytes are exactly the
    last min(n, C) bytes of the chunk. -/
theorem c3_overflow_policy (C : Nat) (hC : 0 < C) (s : RB)
    (h : StateOK C s) (audio : List Nat)
    (hov : C - occupancy C s < audio.length) :
    (∀ i < min audio.length C,
      ((coreaudio_output_send C s audio).1).source_buffer.getD
        ((((coreaudio_output_send C s audio).1).source_buffer_end
          + (C - min audio.length C) + i) % C) 0
        = audio.getD (audio.length - min audio.length C + i) 0) ∧
    (audio.length ≤ C →
      ∀ j, j + (C - occupancy C s) < audio.length → j < occupancy C s →
        ((coreaudio_output_send C s audio).1).source_buffer.getD
          ((s.source_buffer_start + j) % C) 0
          = audio.getD ((C - occupancy C s) + j) 0) ∧
    (∀ j, audio.length - (C - occupancy C s) ≤ j → j < occupancy C s →
      ((coreaudio_output_send C s audio).1).source_buffer.getD
        ((s.source_buffer_start + j) % C) 0
        = s.source_buffer.getD ((s.source_buffer_start + j) % C) 0) ∧
    (∀ i < min audio.length C,
      ((audio_queue_output_callback C
          (audio_queue_output_callback C
            (coreaudio_output_send C s audio).1 C).1 C).2.1).getD
        ((C - min audio.length C) + i) 0
        = audio.getD (audio.length - min audio.length C + i) 0) := by
  obtain ⟨hl, hs, he⟩ := h
  have hocc_lt : occupancy C s < C := Nat.mod_lt _ hC
  have hn1 : 1 ≤ audio.length := by omega
  obtain ⟨ihA, ihB, ihC, ihD, ihE, -, -, -⟩ := sendLoop_spec C hC
    audio.length s.source_buffer s.source_buffer_end audio hl he
    (Nat.le_refl _)
  have hcursor := occupancy_cursor C hC s ⟨hl, hs, he⟩
  have hEnd : (sendLoop C audio.length s.source_buffer s.source_buffer_end
      audio).source_buffer_end % C
      = (s.source_buffer_end + audio.length) % C := by
    rw [ihC, if_neg (by omega),
      show s.source_buffer_end % C + audio.length - 1
        = s.source_buffer_end % C + (audio.length - 1) from by omega,
      Nat.mod_add_mod, Nat.add_assoc, Nat.mod_add_mod,
      show s.source_buffer_end + (audio.length - 1 + 1)
        = s.source_buffer_end + audio.length from by omega]
  have hunread : ∀ x : Nat,
      (s.source_buffer_end + x) % C
        = (s.source_buffer_start + (occupancy C s + x)) % C := by
    intro x
    rw [mod_congr_add C s.source_buffer_end
        (s.source_buffer_start + occupancy C s) x hcursor.symm,
      Nat.add_assoc]
  refine ⟨?_, ?_, ?_, ?_⟩
  · intro i hi
    have hj := ihD (audio.length - min audio.length C + i) (by omega)
      (by omega)
    show (sendLoop C audio.length s.source_buffer s.source_buffer_end
        audio).storage.getD
        (((sendLoop C audio.length s.source_buffer s.source_buffer_end
            audio).source_buffer_end + (C - min audio.length C) + i) % C) 0
      = audio.getD (audio.length - min audio.length C + i) 0
    have hpos : ((sendLoop C audio.length s.source_buffer
        s.source_buffer_end audio).source_buffer_end
          + (C - min audio.length C) + i) % C
        = (s.source_buffer_end
            + (audio.length - min audio.length C + i)) % C := by
      rw [show (sendLoop C audio.length s.source_buffer s.source_buffer_end
            audio).source_buffer_end + (C - min audio.length C) + i
          = (sendLoop C audio.length s.source_buffer s.source_buffer_end
            audio).source_buffer_end + ((C - min audio.length C) + i)
          from by omega,
        mod_congr_add C _ (s.source_buffer_end + audio.length) _ hEnd,
        show s.source_buffer_end + audio.length
            + ((C - min audio.length C) + i)
          = s.source_buffer_end
            + (audio.length - min audio.length C + i) + C from by omega,
        Nat.add_mod_right]
    rw [hpos]
    exact hj
  · intro hnC j hj1 hj2
    have hj := ihD ((C - occupancy C s) + j) (by omega) (by omega)
    show (sendLoop C audio.length s.source_buffer s.source_buffer_end
        audio).storage.getD ((s.source_buffer_start + j) % C) 0
      = audio.getD ((C - occupancy C s) + j) 0
    have hpos : (s.source_buffer_end + ((C - occupancy C s) + j)) % C
        = (s.source_buffer_start + j) % C := by
      rw [hunread ((C - occupancy C s) + j),
        show s.source_buffer_start
            + (occupancy C s + ((C - occupancy C s) + j))
          = s.source_buffer_start + j + C from by omega,
        Nat.add_mod_right]
    rw [hpos] at hj
    exact hj
  · intro j hj1 hj2
    have hk := ihE ((C - occupancy C s) + j) (by omega) (by omega)
    show (sendLoop C audio.length s.source_buffer s.source_buffer_end
        audio).storage.getD ((s.source_buffer_start + j) % C) 0
      = s.source_buffer.getD ((s.source_buffer_start + j) % C) 0
    have hpos : (s.source_buffer_end + ((C - occupancy C s) + j)) % C
        = (s.source_buffer_start + j) % C := by
      rw [hunread ((C - occupancy C s) + j),
        show s.source_buffer_start
            + (occupancy C s + ((C - occupancy C s) + j))
          = s.source_buffer_start + j + C from by omega,
        Nat.add_mod_right]
    rw [hpos] at hk
    exact hk
  · intro i hi
    have hS1 : StateOK C (coreaudio_output_send C s audio).1 :=
      send_preserves C hC s ⟨hl, hs, he⟩ audio
    obtain ⟨k1, k2, k3, k4, k5⟩ := callback_spec C hC
      (coreaudio_output_send C s audio).1 hS1.2.1 hS1.2.2 C
    have hminav : min C (availTotal C (coreaudio_output_send C s audio).1)
        = availTotal C (coreaudio_output_send C s audio).1 := by
      have := availTotal_le C (coreaudio_output_send C s audio).1 hS1
      omega
    have ht1start : (audio_queue_output_callback C
        (coreaudio_output_send C s audio).1 C).1.source_buffer_start
        = (coreaudio_output_send C s audio).1.source_buffer_end % C := by
      rw [k4, hminav,
        availTotal_advance C hC (coreaudio_output_send C s audio).1 hS1]
    have ht1end : (audio_queue_output_callback C
        (coreaudio_output_send C s audio).1 C).1.source_buffer_end
        = (coreaudio_output_send C s audio).1.source_buffer_end % C := by
      by_cases hen : (coreaudio_output_send C s
          audio).1.source_buffer_end = C
      · rw [k5, if_pos ⟨hen, by omega⟩, hen, Nat.mod_self]
      · rw [k5, if_neg (by tauto), Nat.mod_eq_of_lt (by
          have := hS1.2.2
          omega)]
    have hT1 : StateOK C (audio_queue_output_callback C
        (coreaudio_output_send C s audio).1 C).1 :=
      callback_preserves C hC (coreaudio_output_send C s audio).1 hS1 C
    obtain ⟨q1, q2, q3, q4, q5⟩ := callback_spec C hC
      (audio_queue_output_callback C
        (coreaudio_output_send C s audio).1 C).1 hT1.2.1 hT1.2.2 C
    have havt1 : availTotal C (audio_queue_output_callback C
        (coreaudio_output_send C s audio).1 C).1 = C := by
      unfold availTotal
      rw [ht1start, ht1end]
      rw [if_neg (by omega)]
      have := Nat.mod_lt ((coreaudio_output_send C s
        audio).1.source_buffer_end) hC
      omega
    rw [havt1, Nat.min_self, Nat.sub_self, List.replicate_zero,
      List.append_nil] at q2
    rw [q2, range_map_getD _ _ _ _ (by omega), k3, ht1start]
    have hEnd2 : (coreaudio_output_send C s
        audio).1.source_buffer_end % C
        = (s.source_buffer_end + audio.length) % C := hEnd
    have hpos2 : ((coreaudio_output_send C s audio).1.source_buffer_end % C
        + ((C - min audio.length C) + i)) % C
        = (s.source_buffer_end
            + (audio.length - min audio.length C + i)) % C := by
      rw [Nat.mod_add_mod]
      rw [mod_congr_add C _ (s.source_buffer_end + audio.length) _ hEnd2,
        show s.source_buffer_end + audio.length
            + ((C - min audio.length C) + i)
          = s.source_buffer_end
            + (audio.length - min audio.length C + i) + C from by omega,
        Nat.add_mod_right]
    rw [hpos2]
    exact ihD (audio.length - min audio.length C + i) (by omega) (by omega)

/-- Witness for c3_overflow_policy: the twenty bytes 1..20 ingested into
the fresh 16 byte buffer. -/
theorem c3_overflow_policy_witness :
    ((0 : Nat) < 16 ∧ StateOK 16 (coreaudio_output_init 16) ∧
      16 - occupancy 16 (coreaudio_output_init 16)
        < ((List.range 20).map (· + 1)).length) ∧
    ((∀ i < min ((List.range 20).map (· + 1)).length 16,
      ((coreaudio_output_send 16 (coreaudio_output_init 16)
          ((List.range 20).map (· + 1))).1).source_buffer.getD
        ((((coreaudio_output_send 16 (coreaudio_output_init 16)
            ((List.range 20).map (· + 1))).1).source_buffer_end
          + (16 - min ((List.range 20).map (· + 1)).length 16) + i) % 16) 0
        = ((List.range 20).map (· + 1)).getD
            (((List.range 20).map (· + 1)).length
              - min ((List.range 20).map (· + 1)).length 16 + i) 0) ∧
    (((List.range 20).map (· + 1)).length ≤ 16 →
      ∀ j, j + (16 - occupancy 16 (coreaudio_output_init 16))
            < ((List.range 20).map (· + 1)).length →
          j < occupancy 16 (coreaudio_output_init 16) →
        ((coreaudio_output_send 16 (coreaudio_output_init 16)
            ((List.range 20).map (· + 1))).1).source_buffer.getD
          (((coreaudio_output_init 16).source_buffer_start + j) % 16) 0
          = ((List.range 20).map (· + 1)).getD
              ((16 - occupancy 16 (coreaudio_output_init 16)) + j) 0) ∧
    (∀ j, ((List.range 20).map (· + 1)).length
            - (16 - occupancy 16 (coreaudio_output_init 16)) ≤ j →
        j < occupancy 16 (coreaudio_output_init 16) →
      ((coreaudio_output_send 16 (coreaudio_output_init 16)
          ((List.range 20).map (· + 1))).1).source_buffer.getD
        (((coreaudio_output_init 16).source_buffer_start + j) % 16) 0
        = (coreaudio_output_init 16).source_buffer.getD
            (((coreaudio_output_init 16).source_buffer_start + j) % 16) 0) ∧
    (∀ i < min ((List.range 20).map (· + 1)).length 16,
      ((audio_queue_output_callback 16
          (audio_queue_output_callback 16
            (coreaudio_output_send 16 (coreaudio_output_init 16)
              ((List.range 20).map (· + 1))).1 16).1 16).2.1).getD
        ((16 - min ((List.range 20).map (· + 1)).length 16) + i) 0
        = ((List.range 20).map (· + 1)).getD
            (((List.range 20).map (· + 1)).length
              - min ((List.range 20).map (· + 1)).length 16 + i) 0)) :=
  ⟨⟨by decide, by decide, by decide⟩,
   c3_overflow_policy 16 (by decide) (coreaudio_output_init 16) (by decide)
     ((List.range 20).map (· + 1)) (by decide)⟩

end Scream
